import Mathlib

/-!
# Verification of the News_MoodMap analytics pipeline

A shallow embedding of the deterministic core of the News_MoodMap
repository (files `processing.py` and `analytics.py`): the per-country
daily aggregation, the entity ranking, the analog retrieval and
aggregation, the briefing extraction fallback chain, and the mood-score
blending.  BigQuery tables are modelled as Lean lists of structures,
`DATE` values as natural numbers, `FLOAT64` values as exact rationals
(abstracting binary floating-point rounding), SQL `NULL` as `Option`,
and the external generative / vector-search services as oracle
functions supplied as parameters.

`ORDER BY` inside `ARRAY_AGG` / `LIMIT` clauses is modelled by a
deterministic stable insertion sort (`rankSort`): elements are ordered
by the SQL sort key and ties keep their input order.  BigQuery leaves
the relative order of ties unspecified; the stable order is the
deterministic reading used throughout this development.
-/

/-- Stable ranked insertion: `x` is placed after every element that strictly
precedes it under `lt`, so ties keep their input order. -/
def insertRanked {α : Type} (lt : α → α → Prop) [DecidableRel lt] (x : α) : List α → List α
  | [] => [x]
  | y :: ys => if lt y x then y :: insertRanked lt x ys else x :: y :: ys

/-- Stable sort by the strict precedence relation `lt`: a deterministic model
of SQL `ORDER BY`, keeping input order among ties. -/
def rankSort {α : Type} (lt : α → α → Prop) [DecidableRel lt] : List α → List α
  | [] => []
  | x :: xs => insertRanked lt x (rankSort lt xs)

/-- First occurrence of each value, in encounter order; the accumulator holds
the values already emitted.  Models the deterministic enumeration of SQL
`GROUP BY` keys in input order. -/
def firstSeenAux {α : Type} [DecidableEq α] : List α → List α → List α
  | [], _ => []
  | x :: xs, seen =>
    if x ∈ seen then firstSeenAux xs seen else x :: firstSeenAux xs (x :: seen)

/-- Distinct values of a list in first-encounter order. -/
def firstSeen {α : Type} [DecidableEq α] (l : List α) : List α := firstSeenAux l []

/-! ## String helpers

Kernel-computable models of the BigQuery string functions used by the
pipeline.  `String` values are manipulated through their character
lists so that concrete instances reduce inside the kernel. -/

/-- Model of BigQuery `LOWER` (ASCII lower-casing). -/
def lowerStr (s : String) : String := ⟨s.data.map Char.toLower⟩

/-- Model of `LOWER(SPLIT(s, ',')[OFFSET(0)])`: the characters of `s` before
the first comma, lower-cased.  This is the tag normalisation applied by
`create_daily_top_entities` in `processing.py`. -/
def firstSegLower (s : String) : String :=
  lowerStr ⟨s.data.takeWhile (fun c => c ≠ ',')⟩

/-- Model of `SUBSTR(s, 1, n)`: the first `n` characters. -/
def strTake (s : String) (n : Nat) : String := ⟨s.data.take n⟩

/-- The RE2 whitespace class `\s` = `[\t\n\f\r ]`, used by `\S` in the
URL-stripping pattern. -/
def isRegexSpace (c : Char) : Bool :=
  c = ' ' || c = '\t' || c = '\n' || c = '\x0c' || c = '\r'

/-- If the character list starts with `https?://` followed by at least one
non-space character, return the list from that character on. -/
def urlRest? : List Char → Option (List Char)
  | 'h' :: 't' :: 't' :: 'p' :: 's' :: ':' :: '/' :: '/' :: c :: r =>
    if isRegexSpace c then none else some (c :: r)
  | 'h' :: 't' :: 't' :: 'p' :: ':' :: '/' :: '/' :: c :: r =>
    if isRegexSpace c then none else some (c :: r)
  | _ => none

/-- Model of `REGEXP_REPLACE(s, r'https?://\S+', '')` on character lists:
a left-to-right scan deleting each maximal `https?://`-prefixed run of
non-space characters.  Each step shortens the list (a match consumes at
least the eight prefix characters), so fuel equal to the initial length is
never exhausted; the fuel keeps the recursion structural. -/
def stripUrlsAux : Nat → List Char → List Char
  | 0, l => l
  | _, [] => []
  | fuel + 1, c :: cs =>
    match urlRest? (c :: cs) with
    | some r => stripUrlsAux fuel (r.dropWhile (fun x => !isRegexSpace x))
    | none => c :: stripUrlsAux fuel cs

/-- Model of `REGEXP_REPLACE(s, r'https?://\S+', '')`. -/
def stripUrls (s : String) : String := ⟨stripUrlsAux s.data.length s.data⟩

/-- Decimal rendering of a natural number (fuel-based so that it reduces in
the kernel); models `CAST(n AS STRING)` for the `Nat`-coded dates. -/
def natToStrAux : Nat → Nat → List Char
  | 0, _ => []
  | fuel + 1, n =>
    if n < 10 then [Char.ofNat (48 + n)]
    else natToStrAux fuel (n / 10) ++ [Char.ofNat (48 + n % 10)]

/-- Decimal rendering of a natural number. -/
def natToStr (n : Nat) : String := ⟨natToStrAux (n + 1) n⟩

/-- Model of `ARRAY_TO_STRING(l, sep)`: join with `sep` between elements. -/
def joinSep (sep : String) : List String → String
  | [] => ""
  | [x] => x
  | x :: y :: rest => x ++ sep ++ joinSep sep (y :: rest)

/-! ## Sentiment extraction

`create_daily_moodmap` in `analytics.py` parses the generated sentiment
response with `SAFE_CAST(REGEXP_EXTRACT(llm_text, r"-?\d+\.\d+") AS FLOAT64)`.
The RE2 search is modelled as a left-to-right scan for the first position
matching an optional minus sign, one or more digits, a decimal point and one
or more digits; the digit runs are maximal, which for this pattern agrees
with the regex semantics. -/

/-- Try to match `-?\d+\.\d+` at the head of the character list, returning
the sign and the two digit runs. -/
def decimalAt? (cs : List Char) : Option (Bool × List Char × List Char) :=
  let p : Bool × List Char :=
    match cs with
    | '-' :: r => (true, r)
    | r => (false, r)
  let d1 := p.2.takeWhile Char.isDigit
  let r1 := p.2.dropWhile Char.isDigit
  if d1.isEmpty then none
  else
    match r1 with
    | '.' :: r2 =>
      let d2 := r2.takeWhile Char.isDigit
      if d2.isEmpty then none else some (p.1, d1, d2)
    | _ => none

/-- First match of `-?\d+\.\d+` in the character list (leftmost position). -/
def firstDecimal? : List Char → Option (Bool × List Char × List Char)
  | [] => none
  | c :: cs =>
    match decimalAt? (c :: cs) with
    | some m => some m
    | none => firstDecimal? cs

/-- Value of a run of decimal digit characters. -/
def natOfDigits (ds : List Char) : Nat :=
  ds.foldl (fun a c => a * 10 + (c.toNat - 48)) 0

/-- Exact rational value of a matched `-?\d+\.\d+` string; models the
(always-successful) `SAFE_CAST` of the matched text to `FLOAT64`. -/
def ratOfDecimal (m : Bool × List Char × List Char) : ℚ :=
  let v : ℚ := (natOfDigits m.2.1 : ℚ) + (natOfDigits m.2.2 : ℚ) / (10 : ℚ) ^ m.2.2.length
  if m.1 then -v else v

/-- `SAFE_CAST(REGEXP_EXTRACT(s, r"-?\d+\.\d+") AS FLOAT64)`: the extracted
sentiment score, or `none` when the pattern does not occur in `s`. -/
def extract_sentiment (s : String) : Option ℚ :=
  (firstDecimal? s.data).map ratOfDecimal

/-! ## Rounding and the mood blend -/

/-- Rounding to the nearest integer, halves away from zero — the behaviour of
BigQuery `ROUND`. -/
def roundHalf (x : ℚ) : ℤ :=
  if 0 ≤ x then ⌊x + 1/2⌋ else ⌈x - 1/2⌉

/-- Model of `ROUND(x, 4)`. -/
def round4 (x : ℚ) : ℚ := (roundHalf (x * 10000) : ℚ) / 10000

/-- The blend `ROUND((sentiment_score + avg_tone / 10) / 2, 4)` computed by
the `blended_scores` step of `create_daily_moodmap`. -/
def moodBlend (sentiment_score avg_tone : ℚ) : ℚ :=
  round4 ((sentiment_score + avg_tone / 10) / 2)

/-! ## Data model

List-of-structure models of the BigQuery tables.  Only the fields that
the verified stages read are retained (e.g. `daily_country_topics` also
stores `min_tone`, `max_tone`, `top_event_types` and `sample_urls`,
which no downstream stage of the claims consumes). -/

/-- A row of `daily_country_topics` (`create_daily_country_topics`,
`processing.py`), restricted to the fields read downstream. -/
structure TopicRow where
  event_date : Nat
  country : String
  headline_count : Nat
  avg_tone : ℚ
  topic_doc : String
deriving DecidableEq

/-- A row returned by the table function `fn_similar_to_day`
(`create_vector_search_functions`, `processing.py`): a vector-search
candidate with its cosine distance. -/
structure EmbRow where
  event_date : Nat
  country : String
  topic_doc : String
  distance : ℚ
  id : String
deriving DecidableEq

/-- A row of `daily_analogs_flat` (`run_analog_searches`, `analytics.py`). -/
structure AnalogResult where
  event_date : Nat
  country : String
  past_date : Nat
  snippet : String
  distance : ℚ
deriving DecidableEq

/-- An element of the `analogs` array of `daily_analogs`
(`save_daily_analogs`, `analytics.py`). -/
structure AnalogStruct where
  past_date : Nat
  snippet : String
  distance : ℚ
deriving DecidableEq

/-- A row of `daily_analogs` (`save_daily_analogs`, `analytics.py`). -/
structure DailyAnalogsRow where
  event_date : Nat
  country : String
  analogs : List AnalogStruct
  analogs_txt : String
deriving DecidableEq

/-- The loosely-structured response of one `ML.GENERATE_TEXT` call, as seen
by the extraction code of `create_daily_briefings`: the flattened
`ml_generate_text_llm_result` field plus the four `JSON_VALUE` paths probed
on `TO_JSON_STRING(t)`.  Each path is modelled as an optional field. -/
structure GenResponse where
  llm_text : Option String
  cand_parts_text : Option String
  cand_content_text : Option String
  predictions_content : Option String
  text : Option String
deriving DecidableEq

/-- A row of `daily_briefings` (`create_daily_briefings`, `analytics.py`);
the final `WHERE briefing_text IS NOT NULL` makes the text non-optional. -/
structure BriefingRow where
  event_date : Nat
  country : String
  briefing_text : String
deriving DecidableEq

/-- A row of the `to_summarize` CTE of `create_daily_briefings`.  The
`themes_top` / `people_top` strings and their `themes_nice` / `people_nice`
normalisations only feed the prompt of the generative call, which is
modelled as an oracle keyed by `(event_date, country)`; they are elided. -/
structure SummRow where
  event_date : Nat
  country : String
  headline_count : Nat
  ctx : String
  analogs_txt : Option String
deriving DecidableEq

/-- A row of the `normalized` CTE of `create_daily_briefings`:
`analogs_txt` has been defaulted with `COALESCE(analogs_txt, 'None')`. -/
structure NormRow where
  event_date : Nat
  country : String
  ctx : String
  analogs_txt : String
deriving DecidableEq

/-- A row of `daily_top_entities` as read by `create_daily_moodmap`
(only `top_themes` is carried through). -/
structure EntityRow where
  event_date : Nat
  country : String
  top_themes : List (String × Nat)
deriving DecidableEq

/-- A row of `daily_moodmap` (`create_daily_moodmap`, `analytics.py`). -/
structure MoodRow where
  event_date : Nat
  country : String
  mood_score : ℚ
  top_themes : Option (List (String × Nat))
  briefing_text : String
  summary_ref : Option String
deriving DecidableEq

/-! ## Analog retrieval (`run_analog_searches`, `save_daily_analogs`)

The vector-search capability is an oracle `vsearch : String → Nat → List
EmbRow`: `vsearch c d` is the candidate list returned by `VECTOR_SEARCH`
(top 10, cosine) for the anchor embedding of country `c` on day `d`. -/

/-- `MAX(event_date)` over a list of dates. -/
def maxDate (dates : List Nat) : Nat := dates.foldr max 0

/-- The table function `fn_similar_to_day` (`processing.py`): the raw
vector-search candidates with the anchor day itself removed
(`WHERE vs.base.event_date <> day`). -/
def fn_similar_to_day (vsearch : String → Nat → List EmbRow)
    (country_code : String) (day : Nat) : List EmbRow :=
  (vsearch country_code day).filter (fun r => r.event_date != day)

/-- One `sim_query` of `run_analog_searches` (`analytics.py`): keep only
strictly earlier candidate days (`WHERE event_date < DATE '{event_date}'`,
which in BigQuery resolves to the candidate date column of the table
function, not to the string alias of the anchor date), order ascending by
distance, keep `analog_topk` rows, and project to
`(event_date, country, past_date, snippet, distance)` with the snippet
URL-stripped and truncated to `analog_snip_chars` characters. -/
def analogQuery (vsearch : String → Nat → List EmbRow) (country : String)
    (event_date : Nat) (analog_snip_chars analog_topk : Nat) : List AnalogResult :=
  ((rankSort (fun a b => a.distance < b.distance)
      ((fn_similar_to_day vsearch country event_date).filter
        (fun r => r.event_date < event_date))).take analog_topk).map
    (fun r => ⟨event_date, country, r.event_date,
               strTake (stripUrls r.topic_doc) analog_snip_chars, r.distance⟩)

/-- `run_analog_searches` (`analytics.py`): the concatenated per-cohort-entry
query results; `today_for_analogs` is the cohort list of
`(country, event_date)` pairs. -/
def run_analog_searches (vsearch : String → Nat → List EmbRow)
    (today_for_analogs : List (String × Nat))
    (analog_snip_chars analog_topk : Nat) : List AnalogResult :=
  today_for_analogs.flatMap
    (fun cd => analogQuery vsearch cd.1 cd.2 analog_snip_chars analog_topk)

/-- `create_today_for_analogs` (`analytics.py`): the top `top_n` countries of
the latest day by `headline_count` descending. -/
def create_today_for_analogs (dct : List TopicRow) (top_n : Nat) : List (String × Nat) :=
  ((rankSort (fun a b => b.headline_count < a.headline_count)
      (dct.filter (fun r => r.event_date == maxDate (dct.map TopicRow.event_date)))).take
    top_n).map (fun r => (r.country, r.event_date))

/-- The `daily_analogs` aggregation of `save_daily_analogs` (`analytics.py`):
group `daily_analogs_flat` by `(event_date, country)` (keys in first-seen
order), aggregate `ARRAY_AGG(STRUCT(past_date, snippet, distance) ORDER BY
distance ASC LIMIT analog_topk)`, and render `analogs_txt` by joining the
`"{past_date}: {snippet}"` lines, again ordered ascending by distance, with
`"\n- "`. -/
def save_daily_analogs_agg (flat : List AnalogResult) (analog_topk : Nat) :
    List DailyAnalogsRow :=
  (firstSeen (flat.map (fun r => (r.event_date, r.country)))).map (fun k =>
    let grp := flat.filter (fun r => r.event_date == k.1 && r.country == k.2)
    let analogs := ((rankSort (fun a b => a.distance < b.distance) grp).take
        analog_topk).map (fun r => AnalogStruct.mk r.past_date r.snippet r.distance)
    ⟨k.1, k.2, analogs,
     joinSep "\n- " ((rankSort (fun a b => a.distance < b.distance) analogs).map
       (fun a => natToStr a.past_date ++ ": " ++ a.snippet))⟩)

/-! ## Briefing generation (`create_daily_briefings`)

The generative capability is an oracle `gen : Nat → String → GenResponse`
keyed by `(event_date, country)` — the join key used by the SQL — so the
statements below hold for an arbitrary response shape. -/

/-- The `COALESCE` extraction chain of the `final` CTE of
`create_daily_briefings`: the flattened result field, then the two
multi-candidate JSON paths, then the generic `predictions` path, then the
generic `text` path. -/
def briefing_text? (t : GenResponse) : Option String :=
  ((((t.llm_text).or t.cand_parts_text).or t.cand_content_text).or
    t.predictions_content).or t.text

/-- The `to_summarize` CTE of `create_daily_briefings` (`analytics.py`):
rows of the latest day ordered by `headline_count` descending, limited to
`top_n`, with the URL-stripped `context_chars`-character context and the
left-joined `daily_analogs.analogs_txt`. -/
def to_summarize (dct : List TopicRow) (analogsTbl : List DailyAnalogsRow)
    (top_n context_chars : Nat) : List SummRow :=
  ((rankSort (fun a b => b.headline_count < a.headline_count)
      (dct.filter (fun r => r.event_date == maxDate (dct.map TopicRow.event_date)))).take
    top_n).map (fun r =>
      ⟨r.event_date, r.country, r.headline_count,
       strTake (stripUrls r.topic_doc) context_chars,
       (analogsTbl.find? (fun a =>
         a.event_date == r.event_date && a.country == r.country)).map
         DailyAnalogsRow.analogs_txt⟩)

/-- The `normalized` CTE: `COALESCE(analogs_txt, 'None')`. -/
def normalizedRows (dct : List TopicRow) (analogsTbl : List DailyAnalogsRow)
    (top_n context_chars : Nat) : List NormRow :=
  (to_summarize dct analogsTbl top_n context_chars).map
    (fun s => ⟨s.event_date, s.country, s.ctx, s.analogs_txt.getD "None"⟩)

/-- `create_daily_briefings` (`analytics.py`): generate per row, extract
text through the fallback chain, and keep only rows with non-null text
(`WHERE briefing_text IS NOT NULL`). -/
def create_daily_briefings (dct : List TopicRow) (analogsTbl : List DailyAnalogsRow)
    (gen : Nat → String → GenResponse) (top_n context_chars : Nat) : List BriefingRow :=
  (normalizedRows dct analogsTbl top_n context_chars).filterMap
    (fun s => (briefing_text? (gen s.event_date s.country)).map
      (fun txt => ⟨s.event_date, s.country, txt⟩))

/-! ## Entity ranking (`create_daily_top_entities`, `processing.py`) -/

/-- A row of `gdelt_events_enriched` as read by `create_daily_top_entities`:
the per-event theme and person tag arrays. -/
structure EnrichedRow where
  event_date : Nat
  country : String
  themes : List String
  persons : List String
deriving DecidableEq

/-- The `e` CTE: `UNNEST(themes) t, UNNEST(persons) p` is a cross join of
the two arrays of each event row; each tag is reduced to its lower-cased
first comma-segment. -/
def explodeTags (rows : List EnrichedRow) : List (Nat × String × String × String) :=
  rows.flatMap (fun r => r.themes.flatMap (fun t => r.persons.map (fun p =>
    (r.event_date, r.country, firstSegLower t, firstSegLower p))))

/-- The fixed person denylist of social-platform names. -/
def platformDenylist : List String :=
  ["facebook", "twitter", "instagram", "linkedin", "whatsapp", "youtube"]

/-- The `clean_people` filter: length at least 3 and not a platform name
(nulls are filtered by the SQL as well; tags are modelled as strings). -/
def cleanPerson (p : String) : Bool :=
  3 ≤ p.length && !(platformDenylist.contains p)

/-- The normalised theme tags contributing to `(d, c)`, in encounter order. -/
def themesFor (rows : List EnrichedRow) (d : Nat) (c : String) : List String :=
  (explodeTags rows).filterMap
    (fun q => if q.1 = d ∧ q.2.1 = c then some q.2.2.1 else none)

/-- The normalised person tags contributing to `(d, c)` that pass
`clean_people`, in encounter order. -/
def personsFor (rows : List EnrichedRow) (d : Nat) (c : String) : List String :=
  ((explodeTags rows).filterMap
    (fun q => if q.1 = d ∧ q.2.1 = c then some q.2.2.2 else none)).filter cleanPerson

/-- The per-key `GROUP BY tag / COUNT(*)` of `theme_counts` /
`person_counts`: one `(tag, count)` pair per distinct tag, keys enumerated
in first-seen order. -/
def countTags (tags : List String) : List (String × Nat) :=
  (firstSeen tags).map (fun t => (t, tags.count t))

/-- `ARRAY_AGG(STRUCT(tag, c) ORDER BY c DESC LIMIT 10)`: the counted tags
sorted by count descending (stable, so ties keep first-seen order),
truncated to 10. -/
def topTags (tags : List String) : List (String × Nat) :=
  (rankSort (fun a b => b.2 < a.2) (countTags tags)).take 10

/-- The `top_themes` entry of `daily_top_entities` for key `(d, c)`. -/
def top_themes_for (rows : List EnrichedRow) (d : Nat) (c : String) : List (String × Nat) :=
  topTags (themesFor rows d c)

/-- The `top_people` entry of `daily_top_entities` for key `(d, c)`. -/
def top_people_for (rows : List EnrichedRow) (d : Nat) (c : String) : List (String × Nat) :=
  topTags (personsFor rows d c)

/-! ## Mood blending (`create_daily_moodmap`, `analytics.py`)

`genSent d c` is the flattened `ml_generate_text_llm_result` of the
sentiment call for `(d, c)` (possibly null); `genSumm d c` that of the
hover-summary call.  A row survives to `daily_moodmap` exactly when
`mood_score` is non-null, i.e. when both the extracted sentiment and the
left-joined `avg_tone` are present; the hover summary may be null without
dropping the row. -/
def create_daily_moodmap (briefings : List BriefingRow) (dct : List TopicRow)
    (ents : List EntityRow) (genSent genSumm : Nat → String → Option String) :
    List MoodRow :=
  (briefings.filter
      (fun b => b.event_date == maxDate (briefings.map BriefingRow.event_date))).filterMap
    (fun b =>
      match (genSent b.event_date b.country).bind extract_sentiment,
            (dct.find? (fun g =>
              g.event_date == b.event_date && g.country == b.country)).map
              TopicRow.avg_tone with
      | some s, some t =>
        some ⟨b.event_date, b.country, moodBlend s t,
              (ents.find? (fun e =>
                e.event_date == b.event_date && e.country == b.country)).map
                EntityRow.top_themes,
              b.briefing_text, genSumm b.event_date b.country⟩
      | _, _ => none)

/-! ## Specification-side definitions and test fixtures -/

/-- Modelled from the spec: the first non-null value of an ordered list of
extraction candidates (the "try list of strategies" pattern of the
extraction contract). -/
def firstSome : List (Option String) → Option String
  | [] => none
  | some x :: _ => some x
  | none :: rest => firstSome rest

/-- The ranking contract for a top-10 tag list `r` built from the
encounter-ordered tag occurrence list `tags`: at most 10 entries; every
entry is a counted tag with its occurrence count; counts are descending;
ties keep first-seen order (order of `countTags`); and every counted tag
left out has a count no larger than every retained entry. -/
def TopRankedSpec (tags : List String) (r : List (String × Nat)) : Prop :=
  r.length ≤ 10 ∧
  (∀ x ∈ r, x.1 ∈ tags ∧ x.2 = tags.count x.1) ∧
  List.Pairwise (fun a b => b.2 ≤ a.2) r ∧
  (∀ x y, List.Sublist [x, y] (countTags tags) → x.2 = y.2 → y ∈ r →
    List.Sublist [x, y] r) ∧
  (∀ p ∈ countTags tags, p ∉ r → ∀ q ∈ r, p.2 ≤ q.2)

/-- Test fixture: two analog candidates for the same `(event_date, country)`
key at exactly equal distance. -/
def exFlatTie : List AnalogResult :=
  [⟨10, "A", 1, "s", 1/2⟩, ⟨10, "A", 2, "t", 1/2⟩]

/-- Test fixture: `daily_country_topics` rows for two countries on day 10. -/
def exTopics : List TopicRow :=
  [⟨10, "A", 3, 5, "doc A"⟩, ⟨10, "B", 2, -2, "doc B"⟩]

/-- Test fixture: briefing rows for day 10. -/
def exBriefings : List BriefingRow :=
  [⟨10, "A", "brief A"⟩, ⟨10, "B", "brief B"⟩]

/-- Test fixture: sentiment responses — a decimal for country A, prose
without a decimal for country B. -/
def exGenSent : Nat → String → Option String :=
  fun _ c => if c = "A" then some "0.30" else some "no score today"

/-- Test fixture: hover-summary responses. -/
def exGenSumm : Nat → String → Option String := fun _ _ => some "calm day"

/-- Test fixture: the `daily_moodmap` row produced for country A. -/
def exMoodRow : MoodRow := ⟨10, "A", moodBlend (3/10) 5, none, "brief A", some "calm day"⟩

/-- Test fixture: a vector-search oracle with one strictly earlier
candidate for every anchor. -/
def exVsearch : String → Nat → List EmbRow :=
  fun _ _ => [⟨5, "A", "past doc", 1/2, "A-5"⟩]

/-- Test fixture: the analog row retrieved for anchor `("A", 10)`. -/
def exAnalogRow : AnalogResult := ⟨10, "A", 5, strTake (stripUrls "past doc") 400, 1/2⟩

/-- Test fixture: briefing responses — a primary-field text for country B,
an all-null response shape for every other country. -/
def exGenMixed : Nat → String → GenResponse :=
  fun _ c => if c = "B" then ⟨some "txt B", none, none, none, none⟩
             else ⟨none, none, none, none, none⟩

/-- Test fixture: the briefing row produced for country B. -/
def exBriefRowB : BriefingRow := ⟨10, "B", "txt B"⟩

/-- Test fixture: a vector-search oracle returning only a future day. -/
def exVsearchLate : String → Nat → List EmbRow :=
  fun _ _ => [⟨12, "B", "later doc", 1/3, "B-12"⟩]

/-- Test fixture: enriched event rows for day 10, country A. -/
def exEnriched : List EnrichedRow :=
  [⟨10, "A", ["TAX_THEME,extra", "ECON_DEBT"], ["Twitter,handle", "Al", "John Smith"]⟩]

/-- Test fixture: the aggregated `daily_analogs` row of the tie input. -/
def exTieRow : DailyAnalogsRow :=
  ⟨10, "A", [⟨1, "s", 1/2⟩, ⟨2, "t", 1/2⟩], "1: s\n- 2: t"⟩

/-! ## Theorems -/

theorem insertRanked_perm {α : Type} (lt : α → α → Prop) [DecidableRel lt] (x : α)
    (l : List α) : List.Perm (insertRanked lt x l) (x :: l) := by
  induction l with
  | nil => rfl
  | cons y ys ih =>
    by_cases h : lt y x
    · simp only [insertRanked, if_pos h]
      exact (ih.cons y).trans (List.Perm.swap x y ys)
    · simp only [insertRanked, if_neg h]
      exact List.Perm.refl _

theorem rankSort_perm {α : Type} (lt : α → α → Prop) [DecidableRel lt] (l : List α) :
    List.Perm (rankSort lt l) l := by
  induction l with
  | nil => rfl
  | cons x xs ih =>
    exact (insertRanked_perm lt x (rankSort lt xs)).trans (ih.cons x)

theorem mem_rankSort {α : Type} {lt : α → α → Prop} [DecidableRel lt] {l : List α} {a : α} :
    a ∈ rankSort lt l ↔ a ∈ l :=
  (rankSort_perm lt l).mem_iff

theorem pairwise_insertRanked {α : Type} {lt : α → α → Prop} [DecidableRel lt]
    (hA : ∀ a b, lt a b → ¬ lt b a) (hT : ∀ a b c, lt a c → lt a b ∨ lt b c)
    {x : α} {l : List α} (hl : List.Pairwise (fun a b => ¬ lt b a) l) :
    List.Pairwise (fun a b => ¬ lt b a) (insertRanked lt x l) := by
  induction l with
  | nil => simp [insertRanked]
  | cons y ys ih =>
    obtain ⟨hy, hys⟩ := List.pairwise_cons.mp hl
    by_cases h : lt y x
    · simp only [insertRanked, if_pos h]
      refine List.Pairwise.cons ?_ (ih hys)
      intro z hz
      rcases List.mem_cons.mp ((insertRanked_perm lt x ys).mem_iff.mp hz) with hz | hz
      · subst hz; exact hA y z h
      · exact hy z hz
    · simp only [insertRanked, if_neg h]
      refine List.Pairwise.cons ?_ (List.pairwise_cons.mpr ⟨hy, hys⟩)
      intro z hz
      rcases List.mem_cons.mp hz with hz | hz
      · subst hz; exact h
      · intro hzx
        rcases hT z y x hzx with hzy | hyx
        · exact hy z hz hzy
        · exact h hyx

theorem rankSort_pairwise {α : Type} (lt : α → α → Prop) [DecidableRel lt]
    (hA : ∀ a b, lt a b → ¬ lt b a) (hT : ∀ a b c, lt a c → lt a b ∨ lt b c)
    (l : List α) : List.Pairwise (fun a b => ¬ lt b a) (rankSort lt l) := by
  induction l with
  | nil => simp [rankSort]
  | cons x xs ih => exact pairwise_insertRanked hA hT ih

theorem sublist_insertRanked {α : Type} (lt : α → α → Prop) [DecidableRel lt] (x : α)
    (l : List α) : List.Sublist l (insertRanked lt x l) := by
  induction l with
  | nil => simp [insertRanked]
  | cons y ys ih =>
    by_cases h : lt y x
    · simpa only [insertRanked, if_pos h] using ih.cons₂ y
    · simp only [insertRanked, if_neg h]
      exact (List.Sublist.refl (y :: ys)).cons x

theorem cons_sublist_insertRanked {α : Type} {lt : α → α → Prop} [DecidableRel lt]
    {x y : α} {l : List α} (hy : y ∈ l) (hxy : ¬ lt y x) :
    List.Sublist [x, y] (insertRanked lt x l) := by
  induction l with
  | nil => cases hy
  | cons z zs ih =>
    by_cases h : lt z x
    · simp only [insertRanked, if_pos h]
      rcases List.mem_cons.mp hy with hy | hy
      · exact absurd h (by rwa [hy] at hxy)
      · exact (ih hy).cons z
    · simp only [insertRanked, if_neg h]
      exact ((List.singleton_sublist.mpr hy).cons₂ x)

theorem pair_sublist_rankSort {α : Type} {lt : α → α → Prop} [DecidableRel lt]
    {x y : α} {l : List α} (h : List.Sublist [x, y] l) (hxy : ¬ lt y x) :
    List.Sublist [x, y] (rankSort lt l) := by
  induction l with
  | nil => cases h
  | cons z zs ih =>
    cases h with
    | cons _ h =>
      exact (ih h).trans (sublist_insertRanked lt z (rankSort lt zs))
    | cons₂ _ h =>
      exact cons_sublist_insertRanked (mem_rankSort.mpr (List.singleton_sublist.mp h)) hxy

theorem rankSort_eq_of_pairwise {α : Type} {lt : α → α → Prop} [DecidableRel lt]
    {l : List α} (hl : List.Pairwise (fun a b => ¬ lt b a) l) :
    rankSort lt l = l := by
  induction l with
  | nil => rfl
  | cons x xs ih =>
    obtain ⟨hx, hxs⟩ := List.pairwise_cons.mp hl
    rw [rankSort, ih hxs]
    cases xs with
    | nil => rfl
    | cons y ys => simp only [insertRanked, if_neg (hx y (by simp))]

theorem mem_drop_of_not_mem_take {α : Type} {s : List α} {a : α} {n : Nat}
    (ha : a ∈ s) (hn : a ∉ s.take n) : a ∈ s.drop n := by
  rcases List.mem_append.mp ((List.take_append_drop n s) ▸ ha) with h | h
  · exact absurd h hn
  · exact h

theorem pairwise_take_drop {α : Type} {R : α → α → Prop} {s : List α} {n : Nat}
    (hs : List.Pairwise R s) {q p : α} (hq : q ∈ s.take n) (hp : p ∈ s.drop n) : R q p := by
  have h : List.Pairwise R (s.take n ++ s.drop n) := (List.take_append_drop n s).symm ▸ hs
  exact ((List.pairwise_append.mp h).2.2) q hq p hp

theorem pair_sublist_take {α : Type} {x y : α} :
    ∀ (s : List α) (n : Nat), s.Nodup → List.Sublist [x, y] s → y ∈ s.take n →
      List.Sublist [x, y] (s.take n) := by
  intro s
  induction s with
  | nil => intro n _ h _; cases h
  | cons a as ih =>
    intro n hnd h hy
    cases n with
    | zero => cases hy
    | succ m =>
      obtain ⟨hna, hnas⟩ := List.nodup_cons.mp hnd
      rw [List.take_succ_cons] at hy ⊢
      cases h with
      | cons _ h =>
        have hyas : y ∈ as := (List.sublist_of_cons_sublist h).subset (List.mem_singleton.mpr rfl)
        have hym : y ∈ as.take m := by
          rcases List.mem_cons.mp hy with hy | hy
          · exact absurd (hy ▸ hyas) hna
          · exact hy
        exact (ih m hnas h hym).cons a
      | cons₂ _ h =>
        have hyas : y ∈ as := List.singleton_sublist.mp h
        have hym : y ∈ as.take m := by
          rcases List.mem_cons.mp hy with hy | hy
          · exact absurd (hy ▸ hyas) hna
          · exact hy
        exact (List.singleton_sublist.mpr hym).cons₂ _

theorem mem_firstSeenAux {α : Type} [DecidableEq α] {l : List α} {a : α} :
    ∀ {seen : List α}, a ∈ firstSeenAux l seen ↔ a ∈ l ∧ a ∉ seen := by
  induction l with
  | nil => intro seen; simp [firstSeenAux]
  | cons x xs ih =>
    intro seen
    by_cases h : x ∈ seen
    · rw [firstSeenAux, if_pos h, ih, List.mem_cons]
      constructor
      · rintro ⟨h1, h2⟩
        exact ⟨Or.inr h1, h2⟩
      · rintro ⟨h1 | h1, h2⟩
        · exact absurd (h1 ▸ h) h2
        · exact ⟨h1, h2⟩
    · rw [firstSeenAux, if_neg h, List.mem_cons, List.mem_cons]
      constructor
      · rintro (rfl | hm)
        · exact ⟨Or.inl rfl, h⟩
        · obtain ⟨h1, h2⟩ := ih.mp hm
          have h2x : a ∉ seen := fun hs => h2 (List.mem_cons_of_mem _ hs)
          exact ⟨Or.inr h1, h2x⟩
      · rintro ⟨rfl | h1, h2⟩
        · exact Or.inl rfl
        · by_cases hax : a = x
          · exact Or.inl hax
          · refine Or.inr (ih.mpr ⟨h1, ?_⟩)
            intro hs
            rcases List.mem_cons.mp hs with hs | hs
            · exact hax hs
            · exact h2 hs

theorem mem_firstSeen {α : Type} [DecidableEq α] {l : List α} {a : α} :
    a ∈ firstSeen l ↔ a ∈ l := by
  rw [firstSeen, mem_firstSeenAux]
  simp

theorem nodup_firstSeenAux {α : Type} [DecidableEq α] (l : List α) :
    ∀ (seen : List α), (firstSeenAux l seen).Nodup := by
  induction l with
  | nil => intro seen; simp [firstSeenAux]
  | cons x xs ih =>
    intro seen
    by_cases h : x ∈ seen
    · rw [firstSeenAux, if_pos h]; exact ih seen
    · rw [firstSeenAux, if_neg h]
      refine List.nodup_cons.mpr ⟨fun hm => ?_, ih (x :: seen)⟩
      exact (mem_firstSeenAux.mp hm).2 (List.mem_cons_self _ _)

theorem nodup_firstSeen {α : Type} [DecidableEq α] (l : List α) : (firstSeen l).Nodup :=
  nodup_firstSeenAux l []

theorem roundHalf_bounds {x : ℚ} {B : ℤ} (hl : -(B : ℚ) ≤ x) (hu : x ≤ (B : ℚ)) :
    -B ≤ roundHalf x ∧ roundHalf x ≤ B := by
  rw [roundHalf]
  by_cases h : 0 ≤ x
  · rw [if_pos h]
    constructor
    · refine Int.le_floor.mpr ?_
      push_cast
      linarith
    · have h2 : ⌊x + 1/2⌋ ≤ ⌊(B : ℚ) + 1/2⌋ := Int.floor_le_floor (by linarith)
      have h3 : ⌊(B : ℚ) + 1/2⌋ = B := by
        rw [Int.floor_eq_iff]
        constructor
        · linarith
        · linarith
      omega
  · rw [if_neg h]
    constructor
    · have h2 : ⌈-(B : ℚ) - 1/2⌉ ≤ ⌈x - 1/2⌉ := Int.ceil_le_ceil (by linarith)
      have h3 : ⌈-(B : ℚ) - 1/2⌉ = -B := by
        rw [Int.ceil_eq_iff]
        constructor
        · push_cast; linarith
        · push_cast; linarith
      omega
    · refine Int.ceil_le.mpr ?_
      linarith

theorem round4_bounds {x : ℚ} (hl : -1 ≤ x) (hu : x ≤ 1) :
    -1 ≤ round4 x ∧ round4 x ≤ 1 := by
  have hb : -(10000 : ℤ) ≤ roundHalf (x * 10000) ∧ roundHalf (x * 10000) ≤ (10000 : ℤ) :=
    roundHalf_bounds (by push_cast; linarith) (by push_cast; linarith)
  rw [round4]
  constructor
  · have hz : (-10000 : ℚ) ≤ (roundHalf (x * 10000) : ℚ) := by exact_mod_cast hb.1
    rw [le_div_iff₀ (by norm_num)]
    linarith
  · have hz : (roundHalf (x * 10000) : ℚ) ≤ 10000 := by exact_mod_cast hb.2
    rw [div_le_one (by norm_num)]
    linarith

/-- Claim C2: For every `AnalogResult` row produced by the analog search,
`past_date < event_date` strictly; no same-day or future record appears in
the retriever's output for any anchor, whatever the vector-search oracle
returns. -/
theorem analog_results_strictly_past (vsearch : String → Nat → List EmbRow)
    (cohort : List (String × Nat)) (snip k : Nat) (r : AnalogResult)
    (hr : r ∈ run_analog_searches vsearch cohort snip k) :
    r.past_date < r.event_date := by
  obtain ⟨cd, _, hq⟩ := List.mem_flatMap.mp hr
  obtain ⟨src, hsrc, rfl⟩ := List.mem_map.mp hq
  have h1 := mem_rankSort.mp (List.mem_of_mem_take hsrc)
  have h2 := (List.mem_filter.mp h1).2
  simpa using h2

/-- Every `daily_moodmap` row carries an extracted sentiment `s` and a
joined `avg_tone` `t`, and its `mood_score` is `moodBlend s t`. -/
theorem moodmap_row_spec {briefings : List BriefingRow} {dct : List TopicRow}
    {ents : List EntityRow} {genSent genSumm : Nat → String → Option String}
    {row : MoodRow} (h : row ∈ create_daily_moodmap briefings dct ents genSent genSumm) :
    ∃ s t, (genSent row.event_date row.country).bind extract_sentiment = some s ∧
      (dct.find? (fun g =>
        g.event_date == row.event_date && g.country == row.country)).map
        TopicRow.avg_tone = some t ∧
      row.mood_score = moodBlend s t := by
  obtain ⟨b, _, hf⟩ := List.mem_filterMap.mp h
  rcases hS : (genSent b.event_date b.country).bind extract_sentiment with _ | s <;>
    rw [hS] at hf
  · simp at hf
  rcases hT : (dct.find? (fun g =>
      g.event_date == b.event_date && g.country == b.country)).map TopicRow.avg_tone
    with _ | t <;> rw [hT] at hf
  · simp at hf
  · rw [Option.some_inj] at hf
    subst hf
    exact ⟨s, t, hS, hT, rfl⟩

/-- If the sentiment response for `(d, c)` has no extractable score, no
`daily_moodmap` row is keyed `(d, c)`. -/
theorem moodmap_excludes_of_no_sentiment {briefings : List BriefingRow}
    {dct : List TopicRow} {ents : List EntityRow}
    {genSent genSumm : Nat → String → Option String} {d : Nat} {c : String}
    (hnone : (genSent d c).bind extract_sentiment = none) :
    ∀ row ∈ create_daily_moodmap briefings dct ents genSent genSumm,
      ¬(row.event_date = d ∧ row.country = c) := by
  intro row hrow ⟨hd, hc⟩
  obtain ⟨s, t, hS, _, _⟩ := moodmap_row_spec hrow
  rw [hd, hc, hnone] at hS
  cases hS

/-- Claim C1: for every `daily_moodmap` row, `mood_score` equals
`round((sentiment_score + avg_tone / 10) / 2, 4)` where `sentiment_score`
is the extracted sentiment and `avg_tone` the joined tone average; in
particular sentiment 0.30 with tone 5.0 blends to 0.4, and sentiment 0.4
with tone -2 blends to 0.1. -/
theorem moodmap_blend_formula :
    (∀ (briefings : List BriefingRow) (dct : List TopicRow) (ents : List EntityRow)
      (genSent genSumm : Nat → String → Option String) (row : MoodRow),
      row ∈ create_daily_moodmap briefings dct ents genSent genSumm →
      ∃ s t, (genSent row.event_date row.country).bind extract_sentiment = some s ∧
        (dct.find? (fun g =>
          g.event_date == row.event_date && g.country == row.country)).map
          TopicRow.avg_tone = some t ∧
        row.mood_score = moodBlend s t) ∧
    moodBlend 0.30 5 = 0.4 ∧ moodBlend 0.4 (-2) = 0.1 := by
  refine ⟨fun _ _ _ _ _ _ h => moodmap_row_spec h, ?_, ?_⟩
  · rw [moodBlend, round4, roundHalf]
    norm_num
  · rw [moodBlend, round4, roundHalf]
    norm_num

/-- Claim C5: a `daily_moodmap` row whose extracted sentiment lies in
`[-1, 1]` and whose joined `avg_tone` lies in `[-10, 10]` has a blended
`mood_score` in `[-1, 1]`, rounding included. -/
theorem moodmap_score_bounded (briefings : List BriefingRow) (dct : List TopicRow)
    (ents : List EntityRow) (genSent genSumm : Nat → String → Option String)
    (row : MoodRow) (h : row ∈ create_daily_moodmap briefings dct ents genSent genSumm)
    (s t : ℚ)
    (hs : (genSent row.event_date row.country).bind extract_sentiment = some s)
    (ht : (dct.find? (fun g =>
      g.event_date == row.event_date && g.country == row.country)).map
      TopicRow.avg_tone = some t)
    (hs1 : -1 ≤ s) (hs2 : s ≤ 1) (ht1 : -10 ≤ t) (ht2 : t ≤ 10) :
    -1 ≤ row.mood_score ∧ row.mood_score ≤ 1 := by
  obtain ⟨s2, t2, hS, hT, hval⟩ := moodmap_row_spec h
  rw [hs] at hS
  rw [ht] at hT
  rw [Option.some_inj] at hS hT
  subst hS
  subst hT
  rw [hval, moodBlend]
  exact round4_bounds (by linarith) (by linarith)

/-- Claim C6: sentiment extraction takes the first signed-decimal pattern of
the response (here `0.25`, not the later `-0.75`); when no pattern matches,
the extracted score is null and the `(event_date, country)` row is excluded
from `daily_moodmap` — neither retried nor defaulted to zero. -/
theorem unparseable_sentiment_dropped :
    (∀ (briefings : List BriefingRow) (dct : List TopicRow) (ents : List EntityRow)
      (genSent genSumm : Nat → String → Option String) (d : Nat) (c : String),
      (genSent d c).bind extract_sentiment = none →
      ∀ row ∈ create_daily_moodmap briefings dct ents genSent genSumm,
        ¬(row.event_date = d ∧ row.country = c)) ∧
    extract_sentiment "0.25 and -0.75" = some 0.25 ∧
    extract_sentiment "no score today" = none := by
  refine ⟨fun _ _ _ _ _ _ _ h => moodmap_excludes_of_no_sentiment h, ?_, by decide⟩
  rw [extract_sentiment,
    show firstDecimal? ("0.25 and -0.75".data) = some (false, ['0'], ['2', '5']) from by
      decide]
  rw [Option.map, Option.some_inj]
  rw [ratOfDecimal]
  simp only [show natOfDigits ['0'] = 0 from by decide,
    show natOfDigits ['2', '5'] = 25 from by decide]
  norm_num

/-- Claim C10: the extraction pattern requires a decimal point with digits
on both sides, so a response that is exactly the integer `1` or `-1` — a
valid score in `[-1, 1]` — parses to null and its `(event_date, country)`
row is dropped from `daily_moodmap`. -/
theorem integer_sentiment_dropped :
    extract_sentiment "1" = none ∧ extract_sentiment "-1" = none ∧
    (∀ (briefings : List BriefingRow) (dct : List TopicRow) (ents : List EntityRow)
      (genSumm : Nat → String → Option String),
      create_daily_moodmap briefings dct ents (fun _ _ => some "-1") genSumm = []) := by
  refine ⟨by decide, by decide, fun briefings dct ents genSumm => ?_⟩
  rw [create_daily_moodmap, List.filterMap_eq_nil_iff]
  intro b _
  rfl

/-- Claim C4: `briefing_text` is the first non-null value among the primary
result field, the two multi-candidate JSON paths, the predictions path and
the text path, in that strict order; when all five are null the
`(event_date, country)` row is absent from the briefing output rather than
present with null text. -/
theorem briefing_fallback_chain :
    (∀ t : GenResponse, briefing_text? t =
      firstSome [t.llm_text, t.cand_parts_text, t.cand_content_text,
        t.predictions_content, t.text]) ∧
    (∀ (dct : List TopicRow) (analogsTbl : List DailyAnalogsRow)
      (gen : Nat → String → GenResponse) (top_n context_chars : Nat)
      (d : Nat) (c : String),
      gen d c = ⟨none, none, none, none, none⟩ →
      ∀ b ∈ create_daily_briefings dct analogsTbl gen top_n context_chars,
        ¬(b.event_date = d ∧ b.country = c)) := by
  constructor
  · rintro ⟨o1, o2, o3, o4, o5⟩
    rcases o1 with _ | x
    · rcases o2 with _ | x
      · rcases o3 with _ | x
        · rcases o4 with _ | x
          · rcases o5 with _ | x <;> rfl
          · rfl
        · rfl
      · rfl
    · rfl
  · intro dct tbl gen tn cc d c hall b hb hkey
    obtain ⟨hd, hc⟩ := hkey
    obtain ⟨s, _, hf⟩ := List.mem_filterMap.mp hb
    rcases hB : briefing_text? (gen s.event_date s.country) with _ | txt <;> rw [hB] at hf
    · cases hf
    · rw [Option.map, Option.some_inj] at hf
      have hed : s.event_date = d := by rw [← hd, ← hf]
      have hco : s.country = c := by rw [← hc, ← hf]
      rw [hed, hco, hall] at hB
      cases hB

/-- Asymmetry of an `ORDER BY` key comparison, for `rankSort`. -/
theorem distLt_asymm {α : Type} (f : α → ℚ) :
    ∀ a b, f a < f b → ¬ f b < f a := fun _ _ h => lt_asymm h

/-- Comparison split of an `ORDER BY` key comparison, for `rankSort`. -/
theorem distLt_split {α : Type} (f : α → ℚ) :
    ∀ a b c, f a < f c → f a < f b ∨ f b < f c := by
  intro a b c h
  rcases lt_or_le (f a) (f b) with h2 | h2
  · exact Or.inl h2
  · exact Or.inr (lt_of_le_of_lt h2 h)

/-- Claim C3 (amended): every `daily_analogs` row has at most `analog_topk`
analogs, ordered ascending by distance — non-strictly: candidates at equal
distance may both be retained, in aggregation order — and `analogs_txt`
joins the `"{past_date}: {snippet}"` lines in that same order. -/
theorem daily_analogs_ranked (flat : List AnalogResult) (k : Nat)
    (row : DailyAnalogsRow) (hrow : row ∈ save_daily_analogs_agg flat k) :
    row.analogs.length ≤ k ∧
    List.Pairwise (fun a b => a.distance ≤ b.distance) row.analogs ∧
    row.analogs_txt = joinSep "\n- "
      (row.analogs.map (fun a => natToStr a.past_date ++ ": " ++ a.snippet)) := by
  obtain ⟨key, _, rfl⟩ := List.mem_map.mp hrow
  refine ⟨?_, ?_, ?_⟩
  · simp only [List.length_map]
    exact le_trans (List.length_take_le k _) (le_refl k)
  · refine List.pairwise_map.mpr ?_
    refine List.Pairwise.sublist (List.take_sublist k _) ?_
    have hp := rankSort_pairwise (fun a b : AnalogResult => a.distance < b.distance)
      (distLt_asymm _) (distLt_split _)
      (flat.filter (fun r => r.event_date == key.1 && r.country == key.2))
    exact hp.imp (fun h => not_lt.mp h)
  · have hsorted : List.Pairwise
        (fun a b : AnalogStruct => ¬ b.distance < a.distance)
        (((rankSort (fun a b : AnalogResult => a.distance < b.distance)
          (flat.filter (fun r => r.event_date == key.1 && r.country == key.2))).take
          k).map (fun r => AnalogStruct.mk r.past_date r.snippet r.distance)) := by
      refine List.pairwise_map.mpr ?_
      refine List.Pairwise.sublist (List.take_sublist k _) ?_
      exact rankSort_pairwise (fun a b : AnalogResult => a.distance < b.distance)
        (distLt_asymm _) (distLt_split _) _
    show joinSep "\n- " ((rankSort _ _).map _) = _
    rw [rankSort_eq_of_pairwise hsorted]

/-- Claim C3 as stated is false: with two equally-distant candidates the
`analogs` array of the aggregated `daily_analogs` row is not *strictly*
ascending by distance. -/
theorem daily_analogs_tie_counterexample :
    ¬ (∀ row ∈ save_daily_analogs_agg exFlatTie 5,
        List.Pairwise (fun a b => a.distance < b.distance) row.analogs) := by
  intro hall
  have hmap : (save_daily_analogs_agg exFlatTie 5).map DailyAnalogsRow.analogs =
      [[⟨1, "s", 1/2⟩, ⟨2, "t", 1/2⟩]] := by
    simp [save_daily_analogs_agg, exFlatTie, firstSeen, firstSeenAux, rankSort, insertRanked]
  rcases hout : save_daily_analogs_agg exFlatTie 5 with _ | ⟨row, rest⟩
  · rw [hout] at hmap
    cases hmap
  · rw [hout] at hmap
    simp only [List.map_cons, List.cons.injEq] at hmap
    have hp := hall row (by rw [hout]; exact List.mem_cons_self _ _)
    rw [hmap.1] at hp
    have hlt := (List.pairwise_cons.mp hp).1 ⟨2, "t", 1/2⟩ (List.mem_singleton.mpr rfl)
    exact absurd hlt (by norm_num)

theorem mem_countTags {tags : List String} {x : String × Nat} :
    x ∈ countTags tags ↔ x.1 ∈ tags ∧ x.2 = tags.count x.1 := by
  rw [countTags]
  constructor
  · intro hx
    obtain ⟨t, ht, rfl⟩ := List.mem_map.mp hx
    exact ⟨mem_firstSeen.mp ht, rfl⟩
  · rintro ⟨h1, h2⟩
    refine List.mem_map.mpr ⟨x.1, mem_firstSeen.mpr h1, ?_⟩
    rw [← h2]

theorem countTags_fst {tags : List String} :
    (countTags tags).map Prod.fst = firstSeen tags := by
  rw [countTags, List.map_map]
  exact List.map_id _

theorem nodup_countTags (tags : List String) : (countTags tags).Nodup :=
  List.Nodup.of_map Prod.fst (countTags_fst ▸ nodup_firstSeen tags)

theorem topTags_spec (tags : List String) : TopRankedSpec tags (topTags tags) := by
  have hA : ∀ a b : String × Nat, b.2 < a.2 → ¬ a.2 < b.2 := fun _ _ h => Nat.lt_asymm h
  have hT : ∀ a b c : String × Nat, c.2 < a.2 → b.2 < a.2 ∨ c.2 < b.2 := by
    intro a b c h
    rcases Nat.lt_or_ge b.2 a.2 with h2 | h2
    · exact Or.inl h2
    · exact Or.inr (Nat.lt_of_lt_of_le h h2)
  have hpair := rankSort_pairwise (fun a b : String × Nat => b.2 < a.2) hA hT
    (countTags tags)
  have hnd : (rankSort (fun a b : String × Nat => b.2 < a.2) (countTags tags)).Nodup :=
    (rankSort_perm _ _).nodup_iff.mpr (nodup_countTags tags)
  refine ⟨?_, ?_, ?_, ?_, ?_⟩
  · rw [topTags]
    exact le_trans (List.length_take_le 10 _) (le_refl 10)
  · intro x hx
    exact mem_countTags.mp (mem_rankSort.mp (List.mem_of_mem_take hx))
  · refine List.Pairwise.sublist (List.take_sublist 10 _) ?_
    exact hpair.imp (fun h => Nat.le_of_not_lt h)
  · intro x y hxy heq hy
    have hsrt : List.Sublist [x, y]
        (rankSort (fun a b : String × Nat => b.2 < a.2) (countTags tags)) :=
      pair_sublist_rankSort hxy (by rw [heq]; exact Nat.lt_irrefl _)
    exact pair_sublist_take _ 10 hnd hsrt hy
  · intro p hp hpr q hq
    have hpd : p ∈ (rankSort (fun a b : String × Nat => b.2 < a.2)
        (countTags tags)).drop 10 :=
      mem_drop_of_not_mem_take (mem_rankSort.mpr hp) hpr
    exact Nat.le_of_not_lt (pairwise_take_drop hpair hq hpd)

/-- Claim C7: for every `(event_date, country)`, `top_themes` and
`top_people` contain the top 10 tags by occurrence count descending, ties
broken by first-seen order of the tags (the deterministic stable reading of
`ARRAY_AGG(... ORDER BY c DESC LIMIT 10)`). -/
theorem top_entities_ranking (rows : List EnrichedRow) (d : Nat) (c : String) :
    TopRankedSpec (themesFor rows d c) (top_themes_for rows d c) ∧
    TopRankedSpec (personsFor rows d c) (top_people_for rows d c) :=
  ⟨topTags_spec (themesFor rows d c), topTags_spec (personsFor rows d c)⟩

theorem cleanPerson_iff {p : String} :
    cleanPerson p = true ↔ 3 ≤ p.length ∧ p ∉ platformDenylist := by
  simp [cleanPerson]

/-- Claim C8: a person tag whose lower-cased first comma-segment is in the
platform denylist (e.g. "Twitter") never appears in `top_people`, and one
whose normalised form is shorter than 3 characters (e.g. "Al") never
appears regardless of frequency: every `top_people` label has length at
least 3 and is outside the denylist. -/
theorem top_people_noise_filter :
    (∀ (rows : List EnrichedRow) (d : Nat) (c : String) (x : String × Nat),
      x ∈ top_people_for rows d c → 3 ≤ x.1.length ∧ x.1 ∉ platformDenylist) ∧
    firstSegLower "Twitter" ∈ platformDenylist ∧ (firstSegLower "Al").length < 3 := by
  refine ⟨?_, by decide, by decide⟩
  intro rows d c x hx
  have h1 : x.1 ∈ personsFor rows d c :=
    (mem_countTags.mp (mem_rankSort.mp (List.mem_of_mem_take hx))).1
  exact cleanPerson_iff.mp (List.mem_filter.mp h1).2

/-- Claim C9: a cohort country whose vector-search candidates contain no
strictly earlier day yields an empty analog array; in the briefing stage's
input its `analogs_txt` is `"None"`; and it is not excluded from the
briefing output on that basis alone — its row appears whenever the
generated response yields text through the fallback chain. -/
theorem empty_analogs_not_excluded
    (vsearch : String → Nat → List EmbRow) (cohort : List (String × Nat))
    (dct : List TopicRow) (gen : Nat → String → GenResponse)
    (snip k top_n context_chars : Nat) (d : Nat) (c : String)
    (hzero : ∀ r ∈ vsearch c d, ¬ r.event_date < d) :
    analogQuery vsearch c d snip k = [] ∧
    (∀ s ∈ normalizedRows dct
        (save_daily_analogs_agg (run_analog_searches vsearch cohort snip k) k)
        top_n context_chars,
      s.event_date = d → s.country = c → s.analogs_txt = "None") ∧
    (∀ s ∈ normalizedRows dct
        (save_daily_analogs_agg (run_analog_searches vsearch cohort snip k) k)
        top_n context_chars,
      s.event_date = d → s.country = c →
      ∀ txt, briefing_text? (gen d c) = some txt →
        (⟨d, c, txt⟩ : BriefingRow) ∈ create_daily_briefings dct
          (save_daily_analogs_agg (run_analog_searches vsearch cohort snip k) k)
          gen top_n context_chars) := by
  have hfilter : (fn_similar_to_day vsearch c d).filter
      (fun r => r.event_date < d) = [] := by
    rw [List.filter_eq_nil_iff]
    intro r hr
    have hrv : r ∈ vsearch c d := (List.mem_filter.mp hr).1
    simpa using hzero r hrv
  have hempty : analogQuery vsearch c d snip k = [] := by
    rw [analogQuery, hfilter]
    simp [rankSort]
  have hflat : ∀ fr ∈ run_analog_searches vsearch cohort snip k,
      ¬(fr.event_date = d ∧ fr.country = c) := by
    rintro fr hfr ⟨hfd, hfc⟩
    obtain ⟨cd, _, hq⟩ := List.mem_flatMap.mp hfr
    obtain ⟨src, hsrc, rfl⟩ := List.mem_map.mp hq
    have hcd : cd.2 = d := hfd
    have hcc : cd.1 = c := hfc
    rw [hcd, hcc, hempty] at hq
    cases hq
  have hfind : ∀ (d2 : Nat) (c2 : String), d2 = d → c2 = c →
      (save_daily_analogs_agg (run_analog_searches vsearch cohort snip k) k).find?
        (fun a => a.event_date == d2 && a.country == c2) = none := by
    intro d2 c2 hd2 hc2
    subst hd2
    subst hc2
    rw [List.find?_eq_none]
    intro a ha hbeq
    obtain ⟨key, hkey, rfl⟩ := List.mem_map.mp ha
    rw [Bool.and_eq_true, beq_iff_eq, beq_iff_eq] at hbeq
    have hkmem : key ∈ (run_analog_searches vsearch cohort snip k).map
        (fun r => (r.event_date, r.country)) := mem_firstSeen.mp hkey
    obtain ⟨fr, hfr, hfrk⟩ := List.mem_map.mp hkmem
    refine hflat fr hfr ⟨?_, ?_⟩
    · rw [← hbeq.1, ← hfrk]
    · rw [← hbeq.2, ← hfrk]
  refine ⟨hempty, ?_, ?_⟩
  · intro s hs hsd hsc
    obtain ⟨s0, hs0, rfl⟩ := List.mem_map.mp hs
    obtain ⟨r, _, rfl⟩ := List.mem_map.mp hs0
    have hfr := hfind r.event_date r.country hsd hsc
    show (((save_daily_analogs_agg (run_analog_searches vsearch cohort snip k) k).find?
      (fun a => a.event_date == r.event_date && a.country == r.country)).map
      DailyAnalogsRow.analogs_txt).getD "None" = "None"
    rw [hfr]
    rfl
  · intro s hs hsd hsc txt htxt
    refine List.mem_filterMap.mpr ⟨s, hs, ?_⟩
    rw [hsd, hsc, htxt]
    rfl

theorem extract_sentiment_030 : extract_sentiment "0.30" = some (3/10) := by
  rw [extract_sentiment,
    show firstDecimal? ("0.30".data) = some (false, ['0'], ['3', '0']) from by decide]
  rw [Option.map, Option.some_inj, ratOfDecimal]
  simp only [show natOfDigits ['0'] = 0 from by decide,
    show natOfDigits ['3', '0'] = 30 from by decide]
  norm_num

theorem exMoodRow_mem :
    exMoodRow ∈ create_daily_moodmap exBriefings exTopics [] exGenSent exGenSumm := by
  simp [create_daily_moodmap, exBriefings, exTopics, exGenSent, exGenSumm, maxDate,
    exMoodRow, extract_sentiment_030]

/-- Witness: claim C1's formula instantiated on a concrete pipeline run. -/
theorem moodmap_blend_formula_witness :
    ∃ s t, (exGenSent exMoodRow.event_date exMoodRow.country).bind extract_sentiment =
      some s ∧
      (exTopics.find? (fun g => g.event_date == exMoodRow.event_date &&
        g.country == exMoodRow.country)).map TopicRow.avg_tone = some t ∧
      exMoodRow.mood_score = moodBlend s t :=
  moodmap_blend_formula.1 exBriefings exTopics [] exGenSent exGenSumm exMoodRow exMoodRow_mem

/-- Witness: claim C5's bound instantiated on a concrete pipeline run. -/
theorem moodmap_score_bounded_witness :
    -1 ≤ exMoodRow.mood_score ∧ exMoodRow.mood_score ≤ 1 :=
  moodmap_score_bounded exBriefings exTopics [] exGenSent exGenSumm exMoodRow exMoodRow_mem
    (3/10) 5 (by simp [exGenSent, exMoodRow, extract_sentiment_030])
    (by simp [exTopics, exMoodRow])
    (by norm_num) (by norm_num) (by norm_num) (by norm_num)

/-- Witness: claim C6's exclusion instantiated on a concrete pipeline run —
country B's prose response parses to no score, so the produced row is not
keyed to B. -/
theorem unparseable_sentiment_dropped_witness :
    ¬(exMoodRow.event_date = 10 ∧ exMoodRow.country = "B") :=
  unparseable_sentiment_dropped.1 exBriefings exTopics [] exGenSent exGenSumm 10 "B"
    (by decide) exMoodRow exMoodRow_mem

/-- Witness: claim C10's drop instantiated — with every sentiment response
equal to the integer "-1", the concrete pipeline run produces no rows. -/
theorem integer_sentiment_dropped_witness :
    create_daily_moodmap exBriefings exTopics [] (fun _ _ => some "-1") exGenSumm = [] :=
  integer_sentiment_dropped.2.2 exBriefings exTopics [] exGenSumm

/-- Witness: claim C2's invariant instantiated on a concrete retrieval. -/
theorem analog_results_strictly_past_witness :
    exAnalogRow.past_date < exAnalogRow.event_date :=
  analog_results_strictly_past exVsearch [("A", 10)] 400 5 exAnalogRow (by
    simp [run_analog_searches, analogQuery, fn_similar_to_day, exVsearch, exAnalogRow,
      rankSort, insertRanked])

/-- Witness: claim C4 instantiated — the chain picks the third path when the
first two are null, and the concrete briefing row produced for country B is
not keyed to country A, whose response matched no path. -/
theorem briefing_fallback_chain_witness :
    briefing_text? ⟨none, none, some "alt", none, some "tail"⟩ =
      firstSome [none, none, some "alt", none, some "tail"] ∧
    ¬(exBriefRowB.event_date = 10 ∧ exBriefRowB.country = "A") :=
  ⟨briefing_fallback_chain.1 _,
   briefing_fallback_chain.2 exTopics [] exGenMixed 80 700 10 "A" (by decide)
     exBriefRowB (by
       simp [create_daily_briefings, normalizedRows, to_summarize, maxDate, exTopics,
         exGenMixed, exBriefRowB, rankSort, insertRanked, briefing_text?, Option.or])⟩

/-- Witness: claim C9 instantiated — an anchor whose candidates are all
later days retrieves an empty analog list. -/
theorem empty_analogs_not_excluded_witness :
    analogQuery exVsearchLate "B" 10 400 5 = [] :=
  (empty_analogs_not_excluded exVsearchLate [("B", 10)] exTopics exGenMixed 400 5 80 700
    10 "B" (by decide)).1

/-- Witness: claim C7's ranking contract instantiated on concrete enriched
rows. -/
theorem top_entities_ranking_witness :
    TopRankedSpec (themesFor exEnriched 10 "A") (top_themes_for exEnriched 10 "A") ∧
    TopRankedSpec (personsFor exEnriched 10 "A") (top_people_for exEnriched 10 "A") :=
  top_entities_ranking exEnriched 10 "A"

/-- Witness: claim C8 instantiated — the only surviving person label on the
concrete run is "john smith", which has length at least 3 and is outside the
denylist. -/
theorem top_people_noise_filter_witness :
    3 ≤ ("john smith", 2).1.length ∧ ("john smith", 2).1 ∉ platformDenylist :=
  top_people_noise_filter.1 exEnriched 10 "A" ("john smith", 2) (by decide)

/-- Witness: the amended claim C3 instantiated on the tie input. -/
theorem daily_analogs_ranked_witness :
    exTieRow.analogs.length ≤ 5 ∧
    List.Pairwise (fun a b => a.distance ≤ b.distance) exTieRow.analogs ∧
    exTieRow.analogs_txt = joinSep "\n- "
      (exTieRow.analogs.map (fun a => natToStr a.past_date ++ ": " ++ a.snippet)) :=
  daily_analogs_ranked exFlatTie 5 exTieRow (by
    simp [save_daily_analogs_agg, exFlatTie, exTieRow, firstSeen, firstSeenAux, rankSort,
      insertRanked, joinSep, show natToStr 1 = "1" from by decide,
      show natToStr 2 = "2" from by decide])
